import Mathlib

/-!
# File sync into running containers (`pkg/skaffold/kubernetes/sync.go`)

A shallow embedding of `KubectlSyncer.Sync`, `perform`, `copyFileFn` and
`deleteFileFn`.

* A Go `error` is a value of `GoError`; `errors.New` and `errors.Wrap` are its
  two constructors and `GoError.Error` renders the message the way
  `github.com/pkg/errors` does (`msg ++ ": " ++ cause`).
* An `*exec.Cmd` is the list of its arguments (`Cmd.Args`, the program name
  first).
* The cluster and the processes that are started are an environment `Env` of
  oracles.  Every oracle sees the whole history of the run so far, so the same
  query or the same command may have different outcomes at different moments.
* The state of a run is the history: the list of `Event`s, oldest first.
* A Go `map[string]string` is the list of its entries.  `range` over a map and
  the completion order of the goroutines of an `errgroup.Group` are not fixed by
  the program; `Env.order` picks, for every fan-out group, the order in which
  the units of that group complete (a permutation of the entries).
* The units of a group are the closures given to `e.Go`.  Their statement
  `performed++` is not synchronized: it is a read and a write, and
  `Env.schedule` picks how the steps of the units interleave (`stepUnit`,
  `runSchedule`).
-/

namespace Skaffold

/-- The Go `error` values built with `github.com/pkg/errors`. -/
inductive GoError where
  | new (msg : String)
  | wrap (cause : GoError) (msg : String)
  deriving DecidableEq, Repr

/-- The method `Error()`: the message of a wrapped error is the wrapping
message, a colon and a blank, then the message of the cause. -/
def GoError.Error : GoError → String
  | .new msg => msg
  | .wrap cause msg => msg ++ ": " ++ cause.Error

/-- The fields of `v1.Container` that the file reads. -/
structure Container where
  Name : String
  Image : String
  deriving DecidableEq, Repr

/-- The fields of `v1.Pod` that the file reads (`Spec.Containers` is
flattened into `Containers`). -/
structure Pod where
  Namespace : String
  Name : String
  Containers : List Container
  deriving DecidableEq, Repr

/-- The entries of a `map[string]string`, source path to destination path. -/
abbrev Files := List (String × String)

/-- The change-set `sync.Item`. -/
structure Item where
  Image : String
  Copy : Files
  Delete : Files
  deriving DecidableEq, Repr

/-- The arguments of an `*exec.Cmd`. -/
abbrev Cmd := List String

/-- What a run does to the outside world, with the outcome of every command. -/
inductive Event where
  | client
  | listPods (selector : String)
  | run (cmd : Cmd) (err : Option GoError)
  deriving DecidableEq, Repr

/-- The builder of a command, the type of the parameter `cmdFn` of `perform`
(the context is left out: it carries the cancellation only). -/
abbrev CmdFn := Pod → Container → String → String → Cmd

/-! ## The units of one group, step by step

The closure of lines 97 to 105 is several steps: it runs the command, and
after a success it executes `performed++` on the variable `performed` that all
the closures of `perform` share.  No lock and no atomic operation guards that
statement, so it is a read of the variable followed by a write of the value
read plus one, and the steps of the units of one group may interleave. -/

/-- Where a unit stands: before `util.RunCmd`, after a successful command and
before `performed++`, between the read and the write of `performed++` (with
the value read), or returned (with the error it returned). -/
inductive UnitPc where
  | start
  | ran
  | loaded (v : Nat)
  | returned (err : Option GoError)
  deriving DecidableEq, Repr

/-- A unit: the outcome its command has, and where it stands. -/
structure RaceUnit where
  outcome : Option GoError
  pc : UnitPc
  deriving DecidableEq, Repr

/-- One step of a unit on the shared variable `performed`. -/
def stepUnit (performed : Nat) (u : RaceUnit) : Nat × RaceUnit :=
  match u.pc with
  | .start =>
    match u.outcome with
    | some err => (performed, { u with pc := .returned (some err) })
    | none => (performed, { u with pc := .ran })
  | .ran => (performed, { u with pc := .loaded performed })
  | .loaded v => (v + 1, { u with pc := .returned none })
  | .returned _ => (performed, u)

/-- A group in flight: the shared variable and the units. -/
structure GroupState where
  performed : Nat
  units : List RaceUnit
  deriving DecidableEq, Repr

/-- The group when `e.Go` has started one unit for every outcome. -/
def startGroup (performed : Nat) (outcomes : List (Option GoError)) : GroupState :=
  { performed := performed, units := outcomes.map fun o => { outcome := o, pc := .start } }

/-- The scheduler lets the unit `i` take one step. -/
def stepGroup (g : GroupState) (i : Nat) : GroupState :=
  match g.units.get? i with
  | none => g
  | some u =>
    { performed := (stepUnit g.performed u).1, units := g.units.set i (stepUnit g.performed u).2 }

/-- The group after a schedule, the list of the units that step in turn. -/
def runSchedule (g : GroupState) (schedule : List Nat) : GroupState :=
  schedule.foldl stepGroup g

/-- Every unit has returned: `e.Wait()` returns. -/
def allReturned (g : GroupState) : Bool :=
  g.units.all fun u =>
    match u.pc with
    | .returned _ => true
    | _ => false

/-- The number of units whose command succeeds. -/
def succeeded (g : GroupState) : Nat :=
  g.units.countP fun u => u.outcome.isNone

/-- The schedule that lets the units `k`, `k + 1`, ... (`n` of them) run one
after the other, each for its three steps. -/
def serialFrom : Nat → Nat → List Nat
  | _, 0 => []
  | k, n + 1 => k :: k :: k :: serialFrom (k + 1) n

/-- The outside world of a run. -/
structure Env where
  /-- The entries of `constants.Labels.DefaultLabels`, in iteration order. -/
  DefaultLabels : List (String × String)
  /-- The error of `Client()`, `none` when it yields a client. -/
  Client : List Event → Option GoError
  /-- The result of `client.CoreV1().Pods("").List(...)`: `pods.Items`. -/
  ListPods : List Event → Except GoError (List Pod)
  /-- The error of `util.RunCmd(cmd)`, `none` when the command succeeds. -/
  RunCmd : List Event → Cmd → Option GoError
  /-- The order in which the commands of the units of a fan-out group
  complete. -/
  order : List Event → Files → Files
  order_perm : ∀ (h : List Event) (files : Files), (order h files).Perm files
  /-- The interleaving of the steps of the units of a fan-out group: the
  indices of the units that step in turn. -/
  schedule : List Event → List Nat

/-- The function `deleteFileFn`. -/
def deleteFileFn : CmdFn := fun pod container _src dst =>
  ["kubectl", "exec", pod.Name, "--namespace", pod.Namespace, "-c", container.Name,
    "--", "rm", "-rf", dst]

/-- The function `copyFileFn`; the format `"%s/%s:%s"` is written out. -/
def copyFileFn : CmdFn := fun pod container src dst =>
  ["kubectl", "cp", src, pod.Namespace ++ "/" ++ pod.Name ++ ":" ++ dst, "-c", container.Name]

/-- The function `labelSelector`, over the entries of the default labels. -/
def labelSelector (labels : List (String × String)) : String :=
  ",".intercalate (labels.map fun kv => kv.1 ++ "=" ++ kv.2)

/-- The local state of `perform` inside its loops: the history and the
variable `performed`. -/
structure LoopState where
  trace : List Event
  performed : Nat
  deriving DecidableEq, Repr

/-- The outcome of the command of an event. -/
def Event.outcome : Event → Option GoError
  | .run _ err => err
  | _ => none

/-- The commands of the units of one group, in the order `fs` in which they
complete after the history `h`: every closure builds its command with `cmdFn`
and runs it (lines 98 and 99). -/
def unitEvents (env : Env) (cmdFn : CmdFn) (p : Pod) (c : Container) :
    Files → List Event → List Event
  | [], _ => []
  | f :: fs, h =>
    let ev := Event.run (cmdFn p c f.1 f.2) (env.RunCmd h (cmdFn p c f.1 f.2))
    ev :: unitEvents env cmdFn p c fs (h ++ [ev])

/-- The error `e.Wait()` returns: the error of the first unit that was
observed to fail, `none` when no unit failed. -/
def firstError : List Event → Option GoError
  | [] => none
  | .run _ (some e) :: _ => some e
  | _ :: evs => firstError evs

/-- The fan-out group of one matching container, lines 94 to 107: `e.Go`
starts one unit for every entry and `e.Wait()` waits for all of them.  The
group has no context, so a failing unit stops no other unit.  The commands
complete in the order the environment picks, which gives the history and the
outcomes; the units then step as the environment schedules them, each with the
outcome of its command, and the units that have not returned when the
schedule ends run to their end one after the other (`e.Wait()` returns only
when every unit has returned).  A unit reads `performed` only after its own
command, and nothing else ties the commands to the increments. -/
def runGroup (env : Env) (cmdFn : CmdFn) (files : Files) (p : Pod) (c : Container)
    (s : LoopState) : LoopState × Option GoError :=
  let evs := unitEvents env cmdFn p c (env.order s.trace files) s.trace
  let g := runSchedule (startGroup s.performed (evs.map Event.outcome))
    (env.schedule s.trace ++ serialFrom 0 evs.length)
  ({ trace := s.trace ++ evs, performed := g.performed }, firstError evs)

/-- The inner loop of `perform`, over the containers of one pod.  A returned
error is the one `perform` returns at line 108. -/
def performContainers (env : Env) (image : String) (files : Files) (cmdFn : CmdFn) (p : Pod) :
    List Container → LoopState → LoopState × Option GoError
  | [], s => (s, none)
  | c :: cs, s =>
    if c.Image != image then
      performContainers env image files cmdFn p cs s
    else
      match runGroup env cmdFn files p c s with
      | (s1, some err) => (s1, some (GoError.wrap err "syncing files"))
      | (s1, none) => performContainers env image files cmdFn p cs s1

/-- The outer loop of `perform`, over `pods.Items`. -/
def performPods (env : Env) (image : String) (files : Files) (cmdFn : CmdFn) :
    List Pod → LoopState → LoopState × Option GoError
  | [], s => (s, none)
  | p :: ps, s =>
    match performContainers env image files cmdFn p p.Containers s with
    | (s1, some err) => (s1, some err)
    | (s1, none) => performPods env image files cmdFn ps s1

/-- The function `perform`, started after the history `t`: the history at its
return and the error it returns (`none` for `nil`). -/
def perform (env : Env) (image : String) (files : Files) (cmdFn : CmdFn) (t : List Event) :
    List Event × Option GoError :=
  match env.Client t with
  | some err => (t ++ [Event.client], some (GoError.wrap err "getting k8s client"))
  | none =>
    let t1 := t ++ [Event.client]
    let t2 := t1 ++ [Event.listPods (labelSelector env.DefaultLabels)]
    match env.ListPods t1 with
    | .error err => (t2, some (GoError.wrap err "getting pods"))
    | .ok pods =>
      match performPods env image files cmdFn pods { trace := t2, performed := 0 } with
      | (s, some err) => (s.trace, some err)
      | (s, none) =>
        if s.performed != files.length then
          (s.trace, some (GoError.new "couldn't sync all the files"))
        else
          (s.trace, none)

/-- The method `KubectlSyncer.Sync`, started after the history `t` (the two
log lines are left out). -/
def Sync (env : Env) (s : Item) (t : List Event) : List Event × Option GoError :=
  let copied : List Event × Option GoError :=
    if s.Copy.length > 0 then
      match perform env s.Image s.Copy copyFileFn t with
      | (t1, some err) => (t1, some (GoError.wrap err "copying files"))
      | (t1, none) => (t1, none)
    else
      (t, none)
  match copied with
  | (t1, some err) => (t1, some err)
  | (t1, none) =>
    if s.Delete.length > 0 then
      match perform env s.Image s.Delete deleteFileFn t1 with
      | (t2, some err) => (t2, some (GoError.wrap err "deleting files"))
      | (t2, none) => (t2, none)
    else
      (t1, none)

/-! ## Observers of a history and of a pod listing -/

/-- The command of an event, when the event is the run of a command. -/
def Event.cmd? : Event → Option Cmd
  | .run cmd _ => some cmd
  | _ => none

/-- The commands issued in a history, oldest first. -/
def cmds (t : List Event) : List Cmd := t.filterMap Event.cmd?

/-- A command that failed, as an event. -/
def Event.failed : Event → Bool
  | .run _ (some _) => true
  | _ => false

/-- A pod query, as an event. -/
def Event.isList : Event → Bool
  | .listPods _ => true
  | _ => false

/-- A copy command is a `kubectl cp`. -/
def isCopyCmd : Cmd → Bool
  | "kubectl" :: "cp" :: _ => true
  | _ => false

/-- A delete command is a `kubectl exec` of `rm -rf`. -/
def isDeleteCmd : Cmd → Bool
  | ["kubectl", "exec", _, "--namespace", _, "-c", _, "--", "rm", "-rf", _] => true
  | _ => false

/-- The pairs of a pod and one of its containers that the two loops of
`perform` select (lines 88 to 92), in the order the loops reach them. -/
def matching (pods : List Pod) (image : String) : List (Pod × Container) :=
  pods.flatMap fun p => (p.Containers.filter fun c => c.Image == image).map fun c => (p, c)

/-- The two loops of `perform` seen as one loop over the selected pairs. -/
def performTargets (env : Env) (files : Files) (cmdFn : CmdFn) :
    List (Pod × Container) → LoopState → LoopState × Option GoError
  | [], s => (s, none)
  | t :: ts, s =>
    match runGroup env cmdFn files t.1 t.2 s with
    | (s1, some err) => (s1, some (GoError.wrap err "syncing files"))
    | (s1, none) => performTargets env files cmdFn ts s1

/-! ## Concrete inputs -/

/-- An environment in which every query and every command succeeds, with a
fixed pod listing. -/
def okEnv (pods : List Pod) : Env where
  DefaultLabels := [("app.kubernetes.io/managed-by", "skaffold")]
  Client := fun _ => none
  ListPods := fun _ => .ok pods
  RunCmd := fun _ _ => none
  order := fun _ files => files
  order_perm := fun _ _ => List.Perm.refl _
  schedule := fun _ => []

/-- An environment in which every query and every command succeeds, with a
fixed pod listing, and in which the first two units of every group read
`performed` before either writes it. -/
def raceEnv (pods : List Pod) : Env where
  DefaultLabels := [("app.kubernetes.io/managed-by", "skaffold")]
  Client := fun _ => none
  ListPods := fun _ => .ok pods
  RunCmd := fun _ _ => none
  order := fun _ files => files
  order_perm := fun _ _ => List.Perm.refl _
  schedule := fun _ => [0, 1, 0, 1, 0, 1]

/-- A change-set with two files to copy. -/
def itemCopy2 : Item :=
  { Image := "app:v1",
    Copy := [("/local/a.txt", "/app/a.txt"), ("/local/b.txt", "/app/b.txt")], Delete := [] }

/-- A change-set with two files to copy and one file to delete. -/
def itemBoth2 : Item :=
  { Image := "app:v1",
    Copy := [("/local/a.txt", "/app/a.txt"), ("/local/b.txt", "/app/b.txt")],
    Delete := [("/tmp/x", "/app/x")] }

/-- An environment in which every command fails, with a fixed pod listing. -/
def failEnv (pods : List Pod) : Env where
  DefaultLabels := [("app.kubernetes.io/managed-by", "skaffold")]
  Client := fun _ => none
  ListPods := fun _ => .ok pods
  RunCmd := fun _ _ => some (GoError.new "exit status 1")
  order := fun _ files => files
  order_perm := fun _ _ => List.Perm.refl _
  schedule := fun _ => []

/-- An environment in which the pod query fails. -/
def noListEnv : Env where
  DefaultLabels := [("app.kubernetes.io/managed-by", "skaffold")]
  Client := fun _ => none
  ListPods := fun _ => .error (GoError.new "connection refused")
  RunCmd := fun _ _ => none
  order := fun _ files => files
  order_perm := fun _ _ => List.Perm.refl _
  schedule := fun _ => []

/-- An environment whose first pod query succeeds and whose later pod queries
fail. -/
def flakyListEnv (pods : List Pod) : Env where
  DefaultLabels := [("app.kubernetes.io/managed-by", "skaffold")]
  Client := fun _ => none
  ListPods := fun h =>
    if h.length < 2 then .ok pods else .error (GoError.new "connection refused")
  RunCmd := fun _ _ => none
  order := fun _ files => files
  order_perm := fun _ _ => List.Perm.refl _
  schedule := fun _ => []

/-- The selector of the concrete environments. -/
def selector0 : String := "app.kubernetes.io/managed-by=skaffold"

/-- A change-set with one file to copy. -/
def itemCopy : Item :=
  { Image := "app:v1", Copy := [("/local/a.txt", "/app/a.txt")], Delete := [] }

/-- A change-set with one file to delete. -/
def itemDelete : Item :=
  { Image := "app:v1", Copy := [], Delete := [("/tmp/x", "/app/x")] }

/-- A change-set with one file to copy and one file to delete. -/
def itemBoth : Item :=
  { Image := "app:v1", Copy := [("/local/a.txt", "/app/a.txt")],
    Delete := [("/tmp/x", "/app/x")] }

/-- An environment in which one command fails and every other command
succeeds, with a fixed pod listing. -/
def failOnEnv (pods : List Pod) (bad : Cmd) : Env where
  DefaultLabels := [("app.kubernetes.io/managed-by", "skaffold")]
  Client := fun _ => none
  ListPods := fun _ => .ok pods
  RunCmd := fun _ cmd => if cmd = bad then some (GoError.new "exit status 1") else none
  order := fun _ files => files
  order_perm := fun _ _ => List.Perm.refl _
  schedule := fun _ => []

/-- A third pod with a container of image `app:v1`. -/
def podApp3 : Pod :=
  { Namespace := "default", Name := "web-2",
    Containers := [{ Name := "app", Image := "app:v1" }] }

/-- A pod with one container of image `app:v1`. -/
def podApp : Pod :=
  { Namespace := "default", Name := "web-0",
    Containers := [{ Name := "app", Image := "app:v1" }] }

/-- A pod with one container of another image. -/
def podOther : Pod :=
  { Namespace := "default", Name := "db-0",
    Containers := [{ Name := "db", Image := "postgres:11" }] }

/-- A second pod with a container of image `app:v1`. -/
def podApp2 : Pod :=
  { Namespace := "default", Name := "web-1",
    Containers := [{ Name := "app", Image := "app:v1" }] }


/-! ## The error messages -/

theorem Error_wrap_wrap (e : GoError) (inner outer : String) :
    (GoError.wrap (GoError.wrap e inner) outer).Error
      = outer ++ ": " ++ inner ++ ": " ++ e.Error := by
  simp [GoError.Error, String.append_assoc]

/-- Two strings whose first characters differ stay different whatever is
appended to the second. -/
theorem ne_append_of_head_ne (a b x : String) (ca cb : Char) (ta tb : List Char)
    (ha : a.data = ca :: ta) (hb : b.data = cb :: tb) (hne : ca ≠ cb) : a ≠ b ++ x := by
  intro h
  have h2 : a.data = (b ++ x).data := by rw [h]
  rw [String.data_append, ha, hb] at h2
  simp at h2
  exact hne h2.1

/-! ## One fan-out group -/

theorem unitEvents_length (env : Env) (cmdFn : CmdFn) (p : Pod) (c : Container) (fs : Files) :
    ∀ h : List Event, (unitEvents env cmdFn p c fs h).length = fs.length := by
  induction fs with
  | nil => intro h; rfl
  | cons f fs ih => intro h; simp [unitEvents, ih]

theorem cmds_append (t u : List Event) : cmds (t ++ u) = cmds t ++ cmds u := by
  simp [cmds]

theorem cmds_unitEvents (env : Env) (cmdFn : CmdFn) (p : Pod) (c : Container) (fs : Files) :
    ∀ h : List Event,
      cmds (unitEvents env cmdFn p c fs h) = fs.map fun f => cmdFn p c f.1 f.2 := by
  induction fs with
  | nil => intro h; rfl
  | cons f fs ih =>
    intro h
    have := ih (h ++ [Event.run (cmdFn p c f.1 f.2) (env.RunCmd h (cmdFn p c f.1 f.2))])
    simp only [cmds] at this
    simp [unitEvents, cmds, Event.cmd?, this]

theorem mem_unitEvents (env : Env) (cmdFn : CmdFn) (p : Pod) (c : Container) (fs : Files) :
    ∀ (h : List Event) (ev : Event), ev ∈ unitEvents env cmdFn p c fs h →
      ∃ f ∈ fs, ∃ h1 : List Event,
        ev = Event.run (cmdFn p c f.1 f.2) (env.RunCmd h1 (cmdFn p c f.1 f.2)) := by
  induction fs with
  | nil => intro h ev hev; simp [unitEvents] at hev
  | cons f fs ih =>
    intro h ev hev
    simp only [unitEvents, List.mem_cons] at hev
    rcases hev with hev | hev
    · exact ⟨f, List.mem_cons_self _ _, h, hev⟩
    · obtain ⟨g, hg, h1, hh⟩ := ih _ ev hev
      exact ⟨g, List.mem_cons_of_mem _ hg, h1, hh⟩

theorem firstError_none_iff (evs : List Event) :
    firstError evs = none ↔ ∀ ev ∈ evs, ev.failed = false := by
  induction evs with
  | nil => simp [firstError]
  | cons ev evs ih =>
    cases ev with
    | client => simp [firstError, ih, Event.failed]
    | listPods sel => simp [firstError, ih, Event.failed]
    | run cmd err =>
      cases err with
      | none => simp [firstError, ih, Event.failed]
      | some e => simp [firstError, Event.failed]

theorem firstError_mem (evs : List Event) (e : GoError) (h : firstError evs = some e) :
    ∃ cmd, Event.run cmd (some e) ∈ evs := by
  induction evs with
  | nil => simp [firstError] at h
  | cons ev evs ih =>
    cases ev with
    | client =>
      obtain ⟨cmd, hc⟩ := ih (by simpa [firstError] using h)
      exact ⟨cmd, List.mem_cons_of_mem _ hc⟩
    | listPods sel =>
      obtain ⟨cmd, hc⟩ := ih (by simpa [firstError] using h)
      exact ⟨cmd, List.mem_cons_of_mem _ hc⟩
    | run cmd err =>
      cases err with
      | none =>
        obtain ⟨cmd1, hc⟩ := ih (by simpa [firstError] using h)
        exact ⟨cmd1, List.mem_cons_of_mem _ hc⟩
      | some e1 =>
        simp [firstError] at h
        subst h
        exact ⟨cmd, List.mem_cons_self _ _⟩

/-! ## The loops -/

theorem performContainers_eq (env : Env) (image : String) (files : Files) (cmdFn : CmdFn)
    (p : Pod) (cs : List Container) :
    ∀ s : LoopState,
      performContainers env image files cmdFn p cs s =
        match performTargets env files cmdFn
            ((cs.filter fun c => c.Image == image).map fun c => (p, c)) s with
        | (s1, some err) => (s1, some err)
        | (s1, none) => (s1, none) := by
  induction cs with
  | nil => intro s; rfl
  | cons c cs ih =>
    intro s
    by_cases hc : c.Image = image
    · simp only [performContainers, hc, bne_self_eq_false, Bool.false_eq_true, if_false,
        List.filter_cons, beq_self_eq_true, if_true, List.map_cons, performTargets]
      rcases hr : runGroup env cmdFn files p c s with ⟨s1, _ | err⟩
      · simp only []
        rw [ih s1]
      · rfl
    · have hb : (c.Image == image) = false := by simpa using hc
      have hn : (c.Image != image) = true := by simpa using hc
      simp only [performContainers, hn, if_true, List.filter_cons, hb, Bool.false_eq_true,
        if_false]
      exact ih s

theorem performTargets_append (env : Env) (files : Files) (cmdFn : CmdFn)
    (ts us : List (Pod × Container)) :
    ∀ s : LoopState,
      performTargets env files cmdFn (ts ++ us) s =
        match performTargets env files cmdFn ts s with
        | (s1, some err) => (s1, some err)
        | (s1, none) => performTargets env files cmdFn us s1 := by
  induction ts with
  | nil => intro s; rfl
  | cons t ts ih =>
    intro s
    simp only [List.cons_append, performTargets]
    rcases hr : runGroup env cmdFn files t.1 t.2 s with ⟨s1, _ | err⟩
    · simp only []
      exact ih s1
    · rfl

theorem performPods_eq (env : Env) (image : String) (files : Files) (cmdFn : CmdFn)
    (pods : List Pod) :
    ∀ s : LoopState,
      performPods env image files cmdFn pods s =
        performTargets env files cmdFn (matching pods image) s := by
  induction pods with
  | nil => intro s; rfl
  | cons p ps ih =>
    intro s
    have hm : matching (p :: ps) image =
        ((p.Containers.filter fun c => c.Image == image).map fun c => (p, c))
          ++ matching ps image := by
      simp [matching]
    rw [hm, performTargets_append]
    simp only [performPods]
    rw [performContainers_eq]
    generalize performTargets env files cmdFn
        ((p.Containers.filter fun c => c.Image == image).map fun c => (p, c)) s = r
    rcases r with ⟨s1, _ | err⟩
    · exact ih s1
    · rfl

theorem runGroup_trace (env : Env) (cmdFn : CmdFn) (files : Files) (p : Pod) (c : Container)
    (s : LoopState) :
    (runGroup env cmdFn files p c s).1.trace =
      s.trace ++ unitEvents env cmdFn p c (env.order s.trace files) s.trace := rfl

theorem runGroup_result (env : Env) (cmdFn : CmdFn) (files : Files) (p : Pod) (c : Container)
    (s : LoopState) :
    (runGroup env cmdFn files p c s).2 =
      firstError (unitEvents env cmdFn p c (env.order s.trace files) s.trace) := rfl

/-- What the loop over the selected pairs does, whatever the environment: it
only appends runs of commands built for the pairs and the entries; it ends
without error only after every command of every pair was issued and
succeeded; and the error it ends with wraps the error of a command that
failed. -/
theorem performTargets_spec (env : Env) (files : Files) (cmdFn : CmdFn)
    (ts : List (Pod × Container)) :
    ∀ s : LoopState, ∃ evs : List Event,
      (performTargets env files cmdFn ts s).1.trace = s.trace ++ evs ∧
      (∀ ev ∈ evs, ∃ t ∈ ts, ∃ f ∈ files, ∃ h1 : List Event,
        ev = Event.run (cmdFn t.1 t.2 f.1 f.2) (env.RunCmd h1 (cmdFn t.1 t.2 f.1 f.2))) ∧
      ((performTargets env files cmdFn ts s).2 = none →
        evs.length = ts.length * files.length ∧ ∀ ev ∈ evs, ev.failed = false) ∧
      (∀ err, (performTargets env files cmdFn ts s).2 = some err →
        ∃ e cmd, err = GoError.wrap e "syncing files" ∧ Event.run cmd (some e) ∈ evs) := by
  induction ts with
  | nil =>
    intro s
    exact ⟨[], by simp [performTargets], by simp, by simp [performTargets],
      by simp [performTargets]⟩
  | cons t ts ih =>
    intro s
    have hmemE : ∀ ev ∈ unitEvents env cmdFn t.1 t.2 (env.order s.trace files) s.trace,
        ∃ f ∈ files, ∃ h1 : List Event,
          ev = Event.run (cmdFn t.1 t.2 f.1 f.2) (env.RunCmd h1 (cmdFn t.1 t.2 f.1 f.2)) := by
      intro ev hev
      obtain ⟨f, hf, h1, hh⟩ := mem_unitEvents env cmdFn t.1 t.2 _ _ ev hev
      exact ⟨f, (env.order_perm s.trace files).mem_iff.mp hf, h1, hh⟩
    have hlenE : (unitEvents env cmdFn t.1 t.2 (env.order s.trace files) s.trace).length
        = files.length := by
      rw [unitEvents_length]
      exact (env.order_perm s.trace files).length_eq
    have htr := runGroup_trace env cmdFn files t.1 t.2 s
    have hres := runGroup_result env cmdFn files t.1 t.2 s
    generalize unitEvents env cmdFn t.1 t.2 (env.order s.trace files) s.trace = E
      at hmemE hlenE htr hres
    simp only [performTargets]
    generalize runGroup env cmdFn files t.1 t.2 s = r at htr hres
    rcases r with ⟨s1, res⟩
    simp only at htr hres
    subst hres
    cases hfe : firstError E with
    | some e =>
      simp only []
      obtain ⟨cmd, hcmd⟩ := firstError_mem E e hfe
      refine ⟨E, htr, ?_, by simp, ?_⟩
      · intro ev hev
        obtain ⟨f, hf, h1, hh⟩ := hmemE ev hev
        exact ⟨t, List.mem_cons_self _ _, f, hf, h1, hh⟩
      · intro err herr
        simp only [Option.some.injEq] at herr
        exact ⟨e, cmd, herr.symm, hcmd⟩
    | none =>
      simp only []
      obtain ⟨evs, h1, h3, h4, h5⟩ := ih s1
      refine ⟨E ++ evs, ?_, ?_, ?_, ?_⟩
      · rw [h1, htr, List.append_assoc]
      · intro ev hev
        rcases List.mem_append.mp hev with hev | hev
        · obtain ⟨f, hf, h1, hh⟩ := hmemE ev hev
          exact ⟨t, List.mem_cons_self _ _, f, hf, h1, hh⟩
        · obtain ⟨u, hu, f, hf, h1, hh⟩ := h3 ev hev
          exact ⟨u, List.mem_cons_of_mem _ hu, f, hf, h1, hh⟩
      · intro hn
        obtain ⟨hl, hok⟩ := h4 hn
        refine ⟨?_, ?_⟩
        · rw [List.length_append, hl, hlenE, List.length_cons, Nat.succ_mul, Nat.add_comm]
        · intro ev hev
          rcases List.mem_append.mp hev with hev | hev
          · exact (firstError_none_iff E).mp hfe ev hev
          · exact hok ev hev
      · intro err herr
        obtain ⟨e, cmd, he, hc⟩ := h5 err herr
        exact ⟨e, cmd, he, List.mem_append_right _ hc⟩

/-! ## The function `perform` -/

theorem perform_of_pods (env : Env) (image : String) (files : Files) (cmdFn : CmdFn)
    (t : List Event) (pods : List Pod) (hclient : env.Client t = none)
    (hlist : env.ListPods (t ++ [Event.client]) = .ok pods) :
    perform env image files cmdFn t =
      match performTargets env files cmdFn (matching pods image)
          { trace := t ++ [Event.client, Event.listPods (labelSelector env.DefaultLabels)],
            performed := 0 } with
      | (s, some err) => (s.trace, some err)
      | (s, none) =>
        if s.performed != files.length then
          (s.trace, some (GoError.new "couldn't sync all the files"))
        else
          (s.trace, none) := by
  unfold perform
  simp only [hclient, hlist, performPods_eq, List.append_assoc, List.singleton_append]

theorem perform_list_error (env : Env) (image : String) (files : Files) (cmdFn : CmdFn)
    (t : List Event) (e : GoError) (hclient : env.Client t = none)
    (hlist : env.ListPods (t ++ [Event.client]) = .error e) :
    perform env image files cmdFn t =
      (t ++ [Event.client, Event.listPods (labelSelector env.DefaultLabels)],
        some (GoError.wrap e "getting pods")) := by
  unfold perform
  simp only [hclient, hlist, List.append_assoc, List.singleton_append]

theorem matching_eq_nil (pods : List Pod) (image : String)
    (hno : ∀ p ∈ pods, ∀ c ∈ p.Containers, c.Image ≠ image) : matching pods image = [] := by
  unfold matching
  rw [List.flatMap_eq_nil_iff]
  intro p hp
  rw [List.map_eq_nil_iff, List.filter_eq_nil_iff]
  intro c hc
  simpa using hno p hp c hc

theorem perform_no_target (env : Env) (image : String) (files : Files) (cmdFn : CmdFn)
    (t : List Event) (pods : List Pod) (hclient : env.Client t = none)
    (hlist : env.ListPods (t ++ [Event.client]) = .ok pods)
    (hno : matching pods image = []) (hfiles : files ≠ []) :
    perform env image files cmdFn t =
      (t ++ [Event.client, Event.listPods (labelSelector env.DefaultLabels)],
        some (GoError.new "couldn't sync all the files")) := by
  rw [perform_of_pods env image files cmdFn t pods hclient hlist, hno]
  have hlen : files.length ≠ 0 := by
    intro h
    exact hfiles (List.length_eq_zero.mp h)
  have hb : ((0 : Nat) != files.length) = true := by
    simpa using fun h : 0 = files.length => hlen h.symm
  simp only [performTargets, hb, if_true]

/-- The shape of the history `perform` leaves, whatever the environment: one
request for the client, at most one pod query, and runs of commands that the
builder made. -/
theorem perform_trace (env : Env) (image : String) (files : Files) (cmdFn : CmdFn)
    (t : List Event) :
    ∃ evs : List Event,
      (perform env image files cmdFn t).1 = t ++ evs ∧
      evs.countP Event.isList ≤ 1 ∧
      ∀ cmd ∈ cmds evs, ∃ (p : Pod) (c : Container) (f : String × String),
        cmd = cmdFn p c f.1 f.2 := by
  cases hclient : env.Client t with
  | some err =>
    refine ⟨[Event.client], ?_, by decide, by simp [cmds, Event.cmd?]⟩
    simp [perform, hclient]
  | none =>
    cases hlist : env.ListPods (t ++ [Event.client]) with
    | error e =>
      refine ⟨[Event.client, Event.listPods (labelSelector env.DefaultLabels)], ?_,
        by simp [Event.isList], by simp [cmds, Event.cmd?]⟩
      rw [perform_list_error env image files cmdFn t e hclient hlist]
    | ok pods =>
      obtain ⟨evs, h1, h3, _, _⟩ := performTargets_spec env files cmdFn
        (matching pods image)
        { trace := t ++ [Event.client, Event.listPods (labelSelector env.DefaultLabels)],
          performed := 0 }
      refine ⟨[Event.client, Event.listPods (labelSelector env.DefaultLabels)] ++ evs,
        ?_, ?_, ?_⟩
      · rw [perform_of_pods env image files cmdFn t pods hclient hlist]
        generalize performTargets env files cmdFn (matching pods image)
          { trace := t ++ [Event.client, Event.listPods (labelSelector env.DefaultLabels)],
            performed := 0 } = r at h1
        rcases r with ⟨s1, _ | err⟩
        · simp only [] at h1 ⊢
          split <;> simp [h1]
        · simp only [] at h1 ⊢
          simp [h1]
      · have hz : evs.countP Event.isList = 0 := by
          rw [List.countP_eq_zero]
          intro ev hev
          obtain ⟨u, _, f, _, h1, hh⟩ := h3 ev hev
          simp [hh, Event.isList]
        rw [List.countP_append, hz]
        simp [Event.isList, List.countP_cons]
      · intro cmd hcmd
        rw [cmds_append] at hcmd
        simp only [cmds, Event.cmd?, List.filterMap_cons, List.filterMap_nil,
          List.nil_append, List.mem_filterMap] at hcmd
        obtain ⟨ev, hev, hc⟩ := hcmd
        obtain ⟨u, _, f, _, h1, hh⟩ := h3 ev hev
        rw [hh] at hc
        simp only [Event.cmd?, Option.some.injEq] at hc
        exact ⟨u.1, u.2, f, hc.symm⟩

theorem mem_matching (pods : List Pod) (image : String) (p : Pod) (c : Container) :
    (p, c) ∈ matching pods image ↔ p ∈ pods ∧ c ∈ p.Containers ∧ c.Image = image := by
  simp only [matching, List.mem_flatMap, List.mem_map, List.mem_filter, beq_iff_eq,
    Prod.mk.injEq]
  constructor
  · rintro ⟨q, hq, d, ⟨hd, himg⟩, rfl, rfl⟩
    exact ⟨hq, hd, himg⟩
  · rintro ⟨hp, hc, himg⟩
    exact ⟨p, hp, c, ⟨hc, himg⟩, rfl, rfl⟩

/-- The history `perform` leaves is the one its loops leave, whatever it
returns. -/
theorem perform_fst_of_pods (env : Env) (image : String) (files : Files) (cmdFn : CmdFn)
    (t : List Event) (pods : List Pod) (hclient : env.Client t = none)
    (hlist : env.ListPods (t ++ [Event.client]) = .ok pods) :
    (perform env image files cmdFn t).1 =
      (performTargets env files cmdFn (matching pods image)
        { trace := t ++ [Event.client, Event.listPods (labelSelector env.DefaultLabels)],
          performed := 0 }).1.trace := by
  rw [perform_of_pods env image files cmdFn t pods hclient hlist]
  generalize performTargets env files cmdFn (matching pods image)
    { trace := t ++ [Event.client, Event.listPods (labelSelector env.DefaultLabels)],
      performed := 0 } = r
  rcases r with ⟨s1, _ | err⟩
  · simp only []
    split <;> rfl
  · rfl

/-- With exactly one selected pair, `perform` runs one group: one command for
every entry. -/
theorem perform_one_target (env : Env) (image : String) (files : Files) (cmdFn : CmdFn)
    (t : List Event) (pods : List Pod) (u : Pod × Container)
    (hclient : env.Client t = none)
    (hlist : env.ListPods (t ++ [Event.client]) = .ok pods)
    (hm : matching pods image = [u]) :
    (perform env image files cmdFn t).1 =
      t ++ [Event.client, Event.listPods (labelSelector env.DefaultLabels)]
        ++ unitEvents env cmdFn u.1 u.2
          (env.order (t ++ [Event.client, Event.listPods (labelSelector env.DefaultLabels)])
            files)
          (t ++ [Event.client, Event.listPods (labelSelector env.DefaultLabels)]) := by
  rw [perform_fst_of_pods env image files cmdFn t pods hclient hlist, hm]
  simp only [performTargets]
  have htr := runGroup_trace env cmdFn files u.1 u.2
    { trace := t ++ [Event.client, Event.listPods (labelSelector env.DefaultLabels)],
      performed := 0 }
  generalize runGroup env cmdFn files u.1 u.2
    { trace := t ++ [Event.client, Event.listPods (labelSelector env.DefaultLabels)],
      performed := 0 } = r at htr
  rcases r with ⟨s1, _ | err⟩
  · exact htr
  · exact htr

theorem countP_cmds_unitEvents (env : Env) (cmdFn : CmdFn) (p : Pod) (c : Container)
    (fs : Files) (h : List Event) (P : Cmd → Bool) (b : Bool)
    (hP : ∀ f : String × String, P (cmdFn p c f.1 f.2) = b) :
    (cmds (unitEvents env cmdFn p c fs h)).countP P = if b then fs.length else 0 := by
  rw [cmds_unitEvents]
  cases b with
  | true =>
    simp only [if_true]
    rw [List.countP_eq_length.mpr, List.length_map]
    intro cmd hcmd
    obtain ⟨f, _, rfl⟩ := List.mem_map.mp hcmd
    exact hP f
  | false =>
    simp only [Bool.false_eq_true, if_false]
    rw [List.countP_eq_zero]
    intro cmd hcmd
    obtain ⟨f, _, rfl⟩ := List.mem_map.mp hcmd
    simp [hP f]

/-- When every command built for the given pairs succeeds, the loop over them
ends without error. -/
theorem performTargets_ok (env : Env) (files : Files) (cmdFn : CmdFn)
    (ts : List (Pod × Container)) (s : LoopState)
    (hok : ∀ u ∈ ts, ∀ f ∈ files, ∀ h : List Event,
      env.RunCmd h (cmdFn u.1 u.2 f.1 f.2) = none) :
    (performTargets env files cmdFn ts s).2 = none := by
  obtain ⟨evs, _, h3, _, h5⟩ := performTargets_spec env files cmdFn ts s
  cases hr : (performTargets env files cmdFn ts s).2 with
  | none => rfl
  | some err =>
    obtain ⟨e, cmd, _, hmem⟩ := h5 err hr
    obtain ⟨u, hu, f, hf, h1, hh⟩ := h3 _ hmem
    rw [hok u hu f hf h1] at hh
    simp at hh

/-- When every command built for the given pairs succeeds, the loop over `n`
pairs ends without error and appends `n * files.length` runs, all
successful. -/
theorem performTargets_all_ok (env : Env) (files : Files) (cmdFn : CmdFn)
    (ts : List (Pod × Container)) (s : LoopState)
    (hok : ∀ u ∈ ts, ∀ f ∈ files, ∀ h : List Event,
      env.RunCmd h (cmdFn u.1 u.2 f.1 f.2) = none) :
    ∃ (evs : List Event) (s1 : LoopState),
      performTargets env files cmdFn ts s = (s1, none) ∧
      s1.trace = s.trace ++ evs ∧
      evs.length = ts.length * files.length ∧
      (∀ ev ∈ evs, ∃ u ∈ ts, ∃ f ∈ files, ev = Event.run (cmdFn u.1 u.2 f.1 f.2) none) := by
  have hnone := performTargets_ok env files cmdFn ts s hok
  obtain ⟨evs, h1, h3, h4, _⟩ := performTargets_spec env files cmdFn ts s
  obtain ⟨hlen, _⟩ := h4 hnone
  refine ⟨evs, (performTargets env files cmdFn ts s).1, Prod.ext rfl hnone, h1, hlen, ?_⟩
  intro ev hev
  obtain ⟨u, hu, f, hf, h1, hh⟩ := h3 ev hev
  rw [hok u hu f hf h1] at hh
  exact ⟨u, hu, f, hf, hh⟩

theorem unitEvents_mem_of_mem (env : Env) (cmdFn : CmdFn) (p : Pod) (c : Container)
    (fs : Files) (f : String × String) (hf : f ∈ fs) :
    ∀ h : List Event, ∃ h1 : List Event,
      Event.run (cmdFn p c f.1 f.2) (env.RunCmd h1 (cmdFn p c f.1 f.2))
        ∈ unitEvents env cmdFn p c fs h := by
  induction fs with
  | nil => simp at hf
  | cons g fs ih =>
    intro h
    rcases List.mem_cons.mp hf with rfl | hf1
    · exact ⟨h, by simp [unitEvents]⟩
    · obtain ⟨h1, hh⟩ := ih hf1
        (h ++ [Event.run (cmdFn p c g.1 g.2) (env.RunCmd h (cmdFn p c g.1 g.2))])
      exact ⟨h1, by simp only [unitEvents]; exact List.mem_cons_of_mem _ hh⟩

/-- One phase when exactly one pair is selected: after the request for the
client and the pod query come the commands of one group, one for every entry,
whatever the phase returns. -/
theorem perform_one_target_counts (env : Env) (image : String) (files : Files)
    (cmdFn : CmdFn) (t : List Event) (pods : List Pod)
    (hclient : env.Client t = none)
    (hlist : env.ListPods (t ++ [Event.client]) = .ok pods)
    (hone : (matching pods image).length = 1) :
    ∃ E : List Event,
      (perform env image files cmdFn t).1 =
        t ++ [Event.client, Event.listPods (labelSelector env.DefaultLabels)] ++ E ∧
      (∀ (P : Cmd → Bool) (b : Bool),
        (∀ (p : Pod) (c : Container) (f : String × String), P (cmdFn p c f.1 f.2) = b) →
        (cmds E).countP P = if b then files.length else 0) := by
  obtain ⟨u, hu⟩ := List.length_eq_one.mp hone
  have hperf := perform_one_target env image files cmdFn t pods u hclient hlist hu
  have hperm := env.order_perm
    (t ++ [Event.client, Event.listPods (labelSelector env.DefaultLabels)]) files
  refine ⟨unitEvents env cmdFn u.1 u.2
    (env.order (t ++ [Event.client, Event.listPods (labelSelector env.DefaultLabels)]) files)
    (t ++ [Event.client, Event.listPods (labelSelector env.DefaultLabels)]), hperf, ?_⟩
  intro P b hP
  rw [countP_cmds_unitEvents env cmdFn u.1 u.2 _ _ P b (fun f => hP u.1 u.2 f),
    hperm.length_eq]

theorem cmds_client_list (sel : String) (E : List Event) :
    cmds ([Event.client, Event.listPods sel] ++ E) = cmds E := by
  simp [cmds, Event.cmd?]

/-- A command that failed during `perform` makes `perform` return an error. -/
theorem perform_error_of_failed_command (env : Env) (image : String) (files : Files)
    (cmdFn : CmdFn) (t evs : List Event)
    (htrace : (perform env image files cmdFn t).1 = t ++ evs)
    (hfailed : ∃ ev ∈ evs, ev.failed = true) :
    (perform env image files cmdFn t).2 ≠ none := by
  cases hclient : env.Client t with
  | some err => simp [perform, hclient]
  | none =>
    cases hlist : env.ListPods (t ++ [Event.client]) with
    | error e => rw [perform_list_error env image files cmdFn t e hclient hlist]; simp
    | ok pods =>
      obtain ⟨evs1, h1, _, h4, _⟩ := performTargets_spec env files cmdFn
        (matching pods image)
        { trace := t ++ [Event.client, Event.listPods (labelSelector env.DefaultLabels)],
          performed := 0 }
      rw [perform_of_pods env image files cmdFn t pods hclient hlist] at htrace ⊢
      generalize performTargets env files cmdFn (matching pods image)
        { trace := t ++ [Event.client, Event.listPods (labelSelector env.DefaultLabels)],
          performed := 0 } = r at h1 h4 htrace
      rcases r with ⟨s1, _ | err⟩
      · simp only [] at h1 h4 htrace ⊢
        have ht : s1.trace = t ++ evs := by
          split at htrace <;> exact htrace
        rw [h1, List.append_assoc] at ht
        have hevs := List.append_cancel_left ht
        obtain ⟨ev, hev, hf⟩ := hfailed
        rw [← hevs] at hev
        have hnf := (h4 trivial).2
        simp only [List.cons_append, List.nil_append, List.mem_cons] at hev
        rcases hev with rfl | rfl | hev
        · simp [Event.failed] at hf
        · simp [Event.failed] at hf
        · rw [hnf ev hev] at hf
          simp at hf
      · simp

/-! ## The method `Sync` -/

theorem Sync_copy_error (env : Env) (s : Item) (t t1 : List Event) (err : GoError)
    (hcopy : s.Copy ≠ []) (h : perform env s.Image s.Copy copyFileFn t = (t1, some err)) :
    Sync env s t = (t1, some (GoError.wrap err "copying files")) := by
  have hpos : s.Copy.length > 0 := List.length_pos.mpr hcopy
  simp only [Sync, hpos, if_true, h]

theorem Sync_copy_ok (env : Env) (s : Item) (t t1 : List Event)
    (hcopy : s.Copy ≠ []) (h : perform env s.Image s.Copy copyFileFn t = (t1, none)) :
    Sync env s t =
      if s.Delete.length > 0 then
        match perform env s.Image s.Delete deleteFileFn t1 with
        | (t2, some err) => (t2, some (GoError.wrap err "deleting files"))
        | (t2, none) => (t2, none)
      else
        (t1, none) := by
  have hpos : s.Copy.length > 0 := List.length_pos.mpr hcopy
  simp only [Sync, hpos, if_true, h]

theorem Sync_copy_empty (env : Env) (s : Item) (t : List Event) (hcopy : s.Copy = []) :
    Sync env s t =
      if s.Delete.length > 0 then
        match perform env s.Image s.Delete deleteFileFn t with
        | (t2, some err) => (t2, some (GoError.wrap err "deleting files"))
        | (t2, none) => (t2, none)
      else
        (t, none) := by
  simp only [Sync, hcopy, List.length_nil, gt_iff_lt, Nat.lt_irrefl, if_false]

/-- The message of an error wrapped with a phase name determines the message
of the wrapped error. -/
theorem phase_message_injective (phase a b : String)
    (h : phase ++ ": " ++ a = phase ++ ": " ++ b) : a = b := by
  have h2 : (phase ++ ": " ++ a).data = (phase ++ ": " ++ b).data := by rw [h]
  simp only [String.data_append, List.append_assoc] at h2
  have h3 := List.append_cancel_left (List.append_cancel_left h2)
  exact String.ext h3

/-- The message of the verification error is not the message of an error
returned after a failed command (`"syncing files: ..."`). -/
theorem verification_message_ne (x : String) :
    "couldn't sync all the files" ≠ "syncing files: " ++ x :=
  ne_append_of_head_ne _ _ x 'c' 's' _ _ rfl rfl (by decide)

/-! ## The step model of a group under a serial schedule -/

theorem stepGroup_at (p : Nat) (ds : List RaceUnit) (u : RaceUnit) (rest : List RaceUnit) :
    stepGroup { performed := p, units := ds ++ u :: rest } ds.length =
      { performed := (stepUnit p u).1, units := ds ++ (stepUnit p u).2 :: rest } := by
  have hget : (ds ++ u :: rest).get? ds.length = some u := by
    rw [List.get?_eq_getElem?, List.getElem?_append_right (Nat.le_refl _)]
    simp
  simp only [stepGroup, hget]
  rw [List.set_append_right _ _ (Nat.le_refl _)]
  simp

theorem serial_unit (p : Nat) (ds : List RaceUnit) (o : Option GoError)
    (rest : List RaceUnit) :
    runSchedule { performed := p, units := ds ++ { outcome := o, pc := .start } :: rest }
        [ds.length, ds.length, ds.length] =
      { performed := p + (if o.isNone then 1 else 0),
        units := ds ++ { outcome := o, pc := .returned o } :: rest } := by
  cases o with
  | none => simp [runSchedule, stepGroup_at, stepUnit]
  | some e => simp [runSchedule, stepGroup_at, stepUnit]

/-- When the units run one after the other, every unit returns and the
counter advances by the number of commands that succeeded: the step model
then counts every successful unit. -/
theorem serial_schedule_counts (os : List (Option GoError)) :
    ∀ (p : Nat) (ds : List RaceUnit),
      (∀ d ∈ ds, ∃ r, d.pc = UnitPc.returned r) →
      allReturned (runSchedule
          { performed := p, units := ds ++ os.map fun o => { outcome := o, pc := .start } }
          (serialFrom ds.length os.length)) = true ∧
      (runSchedule
          { performed := p, units := ds ++ os.map fun o => { outcome := o, pc := .start } }
          (serialFrom ds.length os.length)).performed
        = p + os.countP fun o => o.isNone := by
  induction os with
  | nil =>
    intro p ds hds
    refine ⟨?_, by simp [serialFrom, runSchedule]⟩
    simp only [serialFrom, runSchedule, List.foldl_nil, List.map_nil, List.append_nil,
      allReturned, List.all_eq_true]
    intro d hd
    obtain ⟨r, hr⟩ := hds d hd
    rw [hr]
  | cons o os ih =>
    intro p ds hds
    have hsplit : serialFrom ds.length (o :: os).length
        = [ds.length, ds.length, ds.length]
          ++ serialFrom (ds ++ [RaceUnit.mk o (UnitPc.returned o)]).length os.length := by
      simp [serialFrom]
    have hds1 : ∀ d ∈ ds ++ [RaceUnit.mk o (UnitPc.returned o)],
        ∃ r, d.pc = UnitPc.returned r := by
      intro d hd
      rcases List.mem_append.mp hd with hd | hd
      · exact hds d hd
      · rw [List.mem_singleton] at hd
        exact ⟨o, by rw [hd]⟩
    have h := ih (p + (if o.isNone then 1 else 0))
      (ds ++ [RaceUnit.mk o (UnitPc.returned o)]) hds1
    rw [hsplit]
    simp only [runSchedule, List.foldl_append, List.map_cons] at h ⊢
    have hu := serial_unit p ds o (os.map fun o => { outcome := o, pc := .start })
    simp only [runSchedule] at hu
    rw [hu]
    simp only [List.append_assoc, List.singleton_append] at h
    refine ⟨h.1, ?_⟩
    rw [h.2, List.countP_cons]
    omega

theorem three_steps_return (p : Nat) (ds : List RaceUnit) (u : RaceUnit)
    (rest : List RaceUnit) :
    ∃ (p1 : Nat) (u1 : RaceUnit),
      runSchedule { performed := p, units := ds ++ u :: rest }
          [ds.length, ds.length, ds.length] =
        { performed := p1, units := ds ++ u1 :: rest } ∧
      ∃ r, u1.pc = UnitPc.returned r := by
  rcases u with ⟨o, pc⟩
  cases pc with
  | start =>
    cases o with
    | none =>
      exact ⟨p + 1, RaceUnit.mk none (UnitPc.returned none),
        by simp [runSchedule, stepGroup_at, stepUnit], none, rfl⟩
    | some e =>
      exact ⟨p, RaceUnit.mk (some e) (UnitPc.returned (some e)),
        by simp [runSchedule, stepGroup_at, stepUnit], some e, rfl⟩
  | ran =>
    exact ⟨p + 1, RaceUnit.mk o (UnitPc.returned none),
      by simp [runSchedule, stepGroup_at, stepUnit], none, rfl⟩
  | loaded v =>
    exact ⟨v + 1, RaceUnit.mk o (UnitPc.returned none),
      by simp [runSchedule, stepGroup_at, stepUnit], none, rfl⟩
  | returned r =>
    exact ⟨p, RaceUnit.mk o (UnitPc.returned r),
      by simp [runSchedule, stepGroup_at, stepUnit], r, rfl⟩

/-- After the serial schedule every unit has returned, wherever the units
stood. -/
theorem serial_returns (rest : List RaceUnit) :
    ∀ (p : Nat) (ds : List RaceUnit),
      (∀ d ∈ ds, ∃ r, d.pc = UnitPc.returned r) →
      allReturned (runSchedule { performed := p, units := ds ++ rest }
        (serialFrom ds.length rest.length)) = true := by
  induction rest with
  | nil =>
    intro p ds hds
    simp only [serialFrom, runSchedule, List.foldl_nil, List.append_nil, List.length_nil,
      allReturned, List.all_eq_true]
    intro d hd
    obtain ⟨r, hr⟩ := hds d hd
    rw [hr]
  | cons u rest ih =>
    intro p ds hds
    obtain ⟨p1, u1, hstep, r1, hr1⟩ := three_steps_return p ds u rest
    have hsplit : serialFrom ds.length (u :: rest).length
        = [ds.length, ds.length, ds.length] ++ serialFrom (ds ++ [u1]).length rest.length := by
      simp [serialFrom]
    have hds1 : ∀ d ∈ ds ++ [u1], ∃ r, d.pc = UnitPc.returned r := by
      intro d hd
      rcases List.mem_append.mp hd with hd | hd
      · exact hds d hd
      · rw [List.mem_singleton] at hd
        exact ⟨r1, by rw [hd, hr1]⟩
    have h := ih p1 (ds ++ [u1]) hds1
    rw [hsplit]
    simp only [runSchedule, List.foldl_append] at h hstep ⊢
    rw [hstep]
    simpa only [List.append_assoc, List.singleton_append] using h

theorem stepGroup_length (g : GroupState) (i : Nat) :
    (stepGroup g i).units.length = g.units.length := by
  unfold stepGroup
  split <;> simp

theorem runSchedule_length (schedule : List Nat) :
    ∀ g : GroupState, (runSchedule g schedule).units.length = g.units.length := by
  induction schedule with
  | nil => intro g; rfl
  | cons i schedule ih =>
    intro g
    simp only [runSchedule, List.foldl_cons] at ih ⊢
    rw [ih, stepGroup_length]

/-- Whatever the schedule, once the units that are left have run to their end
every unit has returned: the state `runGroup` reads is one at which `e.Wait()`
returns. -/
theorem drained_allReturned (p : Nat) (outcomes : List (Option GoError))
    (schedule : List Nat) :
    allReturned (runSchedule (startGroup p outcomes)
      (schedule ++ serialFrom 0 outcomes.length)) = true := by
  have hlen := runSchedule_length schedule (startGroup p outcomes)
  have h := serial_returns (runSchedule (startGroup p outcomes) schedule).units
    (runSchedule (startGroup p outcomes) schedule).performed [] (by simp)
  simp only [List.nil_append, List.length_nil] at h
  rw [hlen] at h
  simp only [startGroup, List.length_map] at h
  simp only [runSchedule, List.foldl_append] at h ⊢
  exact h

/-- A group of one unit, one step: the unit is where a lone unit can be, and
the counter is the one a lone unit leaves. -/
theorem single_unit_step (p : Nat) (o : Option GoError) (q : Nat) (pc : UnitPc)
    (h : (pc = UnitPc.start ∧ q = p) ∨ (pc = UnitPc.ran ∧ q = p ∧ o = none) ∨
      (pc = UnitPc.loaded p ∧ q = p ∧ o = none) ∨
      (pc = UnitPc.returned o ∧ q = p + (if o.isNone then 1 else 0)))
    (i : Nat) :
    ∃ (q1 : Nat) (pc1 : UnitPc),
      stepGroup { performed := q, units := [RaceUnit.mk o pc] } i =
        { performed := q1, units := [RaceUnit.mk o pc1] } ∧
      ((pc1 = UnitPc.start ∧ q1 = p) ∨ (pc1 = UnitPc.ran ∧ q1 = p ∧ o = none) ∨
        (pc1 = UnitPc.loaded p ∧ q1 = p ∧ o = none) ∨
        (pc1 = UnitPc.returned o ∧ q1 = p + (if o.isNone then 1 else 0))) := by
  cases i with
  | succ j => exact ⟨q, pc, by simp [stepGroup], h⟩
  | zero =>
    rcases h with ⟨rfl, rfl⟩ | ⟨rfl, rfl, rfl⟩ | ⟨rfl, rfl, rfl⟩ | ⟨rfl, rfl⟩
    · cases o with
      | none => exact ⟨q, UnitPc.ran, by simp [stepGroup, stepUnit], by simp⟩
      | some e => exact ⟨q, UnitPc.returned (some e), by simp [stepGroup, stepUnit], by simp⟩
    · exact ⟨q, UnitPc.loaded q, by simp [stepGroup, stepUnit], by simp⟩
    · exact ⟨q + 1, UnitPc.returned none, by simp [stepGroup, stepUnit], by simp⟩
    · exact ⟨p + (if o.isNone then 1 else 0), UnitPc.returned o,
        by simp [stepGroup, stepUnit], Or.inr (Or.inr (Or.inr ⟨rfl, rfl⟩))⟩

theorem single_unit_schedule (p : Nat) (o : Option GoError) (schedule : List Nat) :
    ∀ (q : Nat) (pc : UnitPc),
      ((pc = UnitPc.start ∧ q = p) ∨ (pc = UnitPc.ran ∧ q = p ∧ o = none) ∨
        (pc = UnitPc.loaded p ∧ q = p ∧ o = none) ∨
        (pc = UnitPc.returned o ∧ q = p + (if o.isNone then 1 else 0))) →
      ∃ (q1 : Nat) (pc1 : UnitPc),
        runSchedule { performed := q, units := [RaceUnit.mk o pc] } schedule =
          { performed := q1, units := [RaceUnit.mk o pc1] } ∧
        ((pc1 = UnitPc.start ∧ q1 = p) ∨ (pc1 = UnitPc.ran ∧ q1 = p ∧ o = none) ∨
          (pc1 = UnitPc.loaded p ∧ q1 = p ∧ o = none) ∨
          (pc1 = UnitPc.returned o ∧ q1 = p + (if o.isNone then 1 else 0))) := by
  induction schedule with
  | nil => intro q pc h; exact ⟨q, pc, rfl, h⟩
  | cons i schedule ih =>
    intro q pc h
    obtain ⟨q1, pc1, hstep, h1⟩ := single_unit_step p o q pc h i
    obtain ⟨q2, pc2, hrun, h2⟩ := ih q1 pc1 h1
    refine ⟨q2, pc2, ?_, h2⟩
    simp only [runSchedule, List.foldl_cons] at hrun ⊢
    rw [hstep, hrun]

/-- A group of one unit cannot lose an update: whatever the schedule, the
counter advances by one when the command succeeds and stays when it fails. -/
theorem single_unit_counts (p : Nat) (o : Option GoError) (schedule : List Nat) :
    (runSchedule (startGroup p [o]) (schedule ++ serialFrom 0 1)).performed
      = p + (if o.isNone then 1 else 0) := by
  have hret := drained_allReturned p [o] schedule
  obtain ⟨q1, pc1, hrun, h1⟩ := single_unit_schedule p o (schedule ++ serialFrom 0 1) p
    UnitPc.start (Or.inl ⟨rfl, rfl⟩)
  have hstart : startGroup p [o] = { performed := p, units := [RaceUnit.mk o UnitPc.start] } :=
    rfl
  simp only [List.length_singleton] at hret
  rw [hstart] at hret ⊢
  rw [hrun] at hret ⊢
  rcases h1 with ⟨rfl, _⟩ | ⟨rfl, _⟩ | ⟨rfl, _⟩ | ⟨_, hq⟩
  · simp [allReturned] at hret
  · simp [allReturned] at hret
  · simp [allReturned] at hret
  · exact hq

/-- The serial schedule on a group that has just started. -/
theorem serial_startGroup (p : Nat) (os : List (Option GoError)) :
    allReturned (runSchedule (startGroup p os) (serialFrom 0 os.length)) = true ∧
    (runSchedule (startGroup p os) (serialFrom 0 os.length)).performed
      = p + succeeded (startGroup p os) := by
  have h := serial_schedule_counts os p [] (by simp)
  simp only [List.nil_append, List.length_nil] at h
  refine ⟨h.1, ?_⟩
  rw [show (runSchedule (startGroup p os) (serialFrom 0 os.length)).performed
      = p + os.countP fun o => o.isNone from h.2]
  simp [succeeded, startGroup, List.countP_map, Function.comp_def]

/-! ## What does not depend on the schedule -/

theorem runGroup_performed (env : Env) (cmdFn : CmdFn) (files : Files) (p : Pod)
    (c : Container) (s : LoopState) :
    (runGroup env cmdFn files p c s).1.performed =
      (runSchedule
        (startGroup s.performed
          ((unitEvents env cmdFn p c (env.order s.trace files) s.trace).map Event.outcome))
        (env.schedule s.trace
          ++ serialFrom 0
            (unitEvents env cmdFn p c (env.order s.trace files) s.trace).length)).performed :=
  rfl

/-- When every command built for a selected container and an entry succeeds,
`perform` issues one command for every selected container and every entry,
all successful, whatever the schedule and whatever it returns. -/
theorem perform_all_ok_commands (env : Env) (image : String) (files : Files) (cmdFn : CmdFn)
    (t : List Event) (pods : List Pod)
    (hclient : env.Client t = none)
    (hlist : env.ListPods (t ++ [Event.client]) = .ok pods)
    (hok : ∀ u ∈ matching pods image, ∀ f ∈ files, ∀ h : List Event,
      env.RunCmd h (cmdFn u.1 u.2 f.1 f.2) = none) :
    ∃ evs : List Event,
      (perform env image files cmdFn t).1 =
        t ++ [Event.client, Event.listPods (labelSelector env.DefaultLabels)] ++ evs ∧
      evs.length = (matching pods image).length * files.length ∧
      ∀ ev ∈ evs, ∃ u ∈ matching pods image, ∃ f ∈ files,
        ev = Event.run (cmdFn u.1 u.2 f.1 f.2) none := by
  obtain ⟨evs, s1, heq, htr, hlen, hev⟩ := performTargets_all_ok env files cmdFn
    (matching pods image)
    { trace := t ++ [Event.client, Event.listPods (labelSelector env.DefaultLabels)],
      performed := 0 } hok
  refine ⟨evs, ?_, hlen, hev⟩
  rw [perform_fst_of_pods env image files cmdFn t pods hclient hlist, heq]
  exact htr

/-- With one selected container and a mapping of one entry whose command
succeeds, the group has one unit, no update can be lost, and `perform` returns
nil whatever the schedule. -/
theorem perform_one_entry (env : Env) (image : String) (f : String × String) (cmdFn : CmdFn)
    (t : List Event) (pods : List Pod) (u : Pod × Container)
    (hclient : env.Client t = none)
    (hlist : env.ListPods (t ++ [Event.client]) = .ok pods)
    (hm : matching pods image = [u])
    (hok : ∀ h : List Event, env.RunCmd h (cmdFn u.1 u.2 f.1 f.2) = none) :
    perform env image [f] cmdFn t =
      (t ++ [Event.client, Event.listPods (labelSelector env.DefaultLabels),
          Event.run (cmdFn u.1 u.2 f.1 f.2) none],
        none) := by
  have hord : env.order
      (t ++ [Event.client, Event.listPods (labelSelector env.DefaultLabels)]) [f] = [f] :=
    List.perm_singleton.mp (env.order_perm _ [f])
  have htr := runGroup_trace env cmdFn [f] u.1 u.2
    { trace := t ++ [Event.client, Event.listPods (labelSelector env.DefaultLabels)],
      performed := 0 }
  have hres := runGroup_result env cmdFn [f] u.1 u.2
    { trace := t ++ [Event.client, Event.listPods (labelSelector env.DefaultLabels)],
      performed := 0 }
  have hpf := runGroup_performed env cmdFn [f] u.1 u.2
    { trace := t ++ [Event.client, Event.listPods (labelSelector env.DefaultLabels)],
      performed := 0 }
  simp only [hord, unitEvents, hok, List.map_cons, List.map_nil, Event.outcome,
    List.length_singleton, firstError] at htr hres hpf
  rw [single_unit_counts] at hpf
  rw [perform_of_pods env image [f] cmdFn t pods hclient hlist, hm]
  simp only [performTargets]
  generalize runGroup env cmdFn [f] u.1 u.2
    { trace := t ++ [Event.client, Event.listPods (labelSelector env.DefaultLabels)],
      performed := 0 } = r at htr hres hpf
  rcases r with ⟨⟨tr, pf⟩, res⟩
  simp only at htr hres hpf
  subst htr
  subst hres
  subst hpf
  simp

/-! ## The claims -/

/-- C5: with both mappings empty, whatever the artifact identity and the state
of the cluster, `Sync` returns nil and leaves the history as it found it: no
client is requested, no pod query is made and no command is issued. -/
theorem Sync_empty (env : Env) (image : String) (t : List Event) :
    Sync env { Image := image, Copy := [], Delete := [] } t = (t, none) := by
  simp [Sync]

/-- C9: the arguments of the two commands.  `copyFileFn` gives
`kubectl cp src ns/p:dst -c c`, `deleteFileFn` gives
`kubectl exec p --namespace ns -c c -- rm -rf dst`, and the delete command is
the same for every source path. -/
theorem command_arguments (ns p : String) (cs : List Container) (c image src dst : String) :
    copyFileFn { Namespace := ns, Name := p, Containers := cs } { Name := c, Image := image }
        src dst
      = ["kubectl", "cp", src, ns ++ "/" ++ p ++ ":" ++ dst, "-c", c] ∧
    deleteFileFn { Namespace := ns, Name := p, Containers := cs } { Name := c, Image := image }
        src dst
      = ["kubectl", "exec", p, "--namespace", ns, "-c", c, "--", "rm", "-rf", dst] ∧
    ∀ src1 : String,
      deleteFileFn { Namespace := ns, Name := p, Containers := cs }
          { Name := c, Image := image } src1 dst
        = deleteFileFn { Namespace := ns, Name := p, Containers := cs }
          { Name := c, Image := image } src dst :=
  ⟨rfl, rfl, fun _ => rfl⟩

/-- C1: when the client is obtained, the pod query succeeds and no container
of the listing has the image of the change-set, then: with a non-empty copy
mapping `Sync` issues no command and returns the verification error wrapped as
`copying files: couldn't sync all the files`; with an empty copy mapping and a
non-empty delete mapping it issues no command and returns
`deleting files: couldn't sync all the files`.  Neither message is the message
of an error returned after a failed command (`<phase>: syncing files: ...`). -/
theorem Sync_no_matching_container (env : Env) (s : Item) (t : List Event) (pods : List Pod)
    (hclient : env.Client t = none)
    (hlist : env.ListPods (t ++ [Event.client]) = .ok pods)
    (hno : ∀ p ∈ pods, ∀ c ∈ p.Containers, c.Image ≠ s.Image) :
    (s.Copy ≠ [] →
      Sync env s t =
        (t ++ [Event.client, Event.listPods (labelSelector env.DefaultLabels)],
          some (GoError.wrap (GoError.new "couldn't sync all the files") "copying files")) ∧
      cmds (Sync env s t).1 = cmds t) ∧
    (s.Copy = [] → s.Delete ≠ [] →
      Sync env s t =
        (t ++ [Event.client, Event.listPods (labelSelector env.DefaultLabels)],
          some (GoError.wrap (GoError.new "couldn't sync all the files") "deleting files")) ∧
      cmds (Sync env s t).1 = cmds t) ∧
    (GoError.wrap (GoError.new "couldn't sync all the files") "copying files").Error
      = "copying files: couldn't sync all the files" ∧
    (GoError.wrap (GoError.new "couldn't sync all the files") "deleting files").Error
      = "deleting files: couldn't sync all the files" ∧
    ∀ (e : GoError) (phase : String),
      (GoError.wrap (GoError.new "couldn't sync all the files") phase).Error
        ≠ (GoError.wrap (GoError.wrap e "syncing files") phase).Error := by
  have hm := matching_eq_nil pods s.Image hno
  refine ⟨?_, ?_, by decide, by decide, ?_⟩
  · intro hcopy
    have h := Sync_copy_error env s t _ _ hcopy
      (perform_no_target env s.Image s.Copy copyFileFn t pods hclient hlist hm hcopy)
    refine ⟨h, ?_⟩
    rw [h]
    simp [cmds, Event.cmd?]
  · intro hcopy hdel
    have hpos : s.Delete.length > 0 := List.length_pos.mpr hdel
    have h : Sync env s t =
        (t ++ [Event.client, Event.listPods (labelSelector env.DefaultLabels)],
          some (GoError.wrap (GoError.new "couldn't sync all the files") "deleting files")) := by
      rw [Sync_copy_empty env s t hcopy]
      simp only [hpos, if_true,
        perform_no_target env s.Image s.Delete deleteFileFn t pods hclient hlist hm hdel]
    refine ⟨h, ?_⟩
    rw [h]
    simp [cmds, Event.cmd?]
  · intro e phase h
    have h1 := phase_message_injective phase _ _ h
    exact verification_message_ne e.Error h1

/-- A run of C1: the only container of the listing has another image. -/
theorem Sync_no_matching_container_witness :
    (Sync (okEnv [podOther]) itemCopy [] =
        ([Event.client, Event.listPods selector0],
          some (GoError.wrap (GoError.new "couldn't sync all the files") "copying files"))) ∧
    (Sync (okEnv [podOther]) itemDelete [] =
        ([Event.client, Event.listPods selector0],
          some (GoError.wrap (GoError.new "couldn't sync all the files") "deleting files"))) :=
  ⟨((Sync_no_matching_container (okEnv [podOther]) itemCopy [] [podOther] rfl rfl
      (by decide)).1 (by decide)).1,
    ((Sync_no_matching_container (okEnv [podOther]) itemDelete [] [podOther] rfl rfl
      (by decide)).2.1 rfl (by decide)).1⟩

/-- C8: when the client is obtained after the history `t` and the pod query
that follows fails with `e`, `perform` returns `getting pods: e` and issues no
command, whatever the image, the mapping and the builder.  `Sync` returns
that error wrapped with the name of the phase: `copying files: getting pods: e`
when the copy mapping is non-empty and the copy phase starts at `t`, and
`deleting files: getting pods: e` when the delete mapping is non-empty and the
delete phase starts at `t` (the copy mapping is empty, or the copy phase ended
at `t` without error). -/
theorem pod_query_failure (env : Env) (t : List Event) (e : GoError)
    (hclient : env.Client t = none)
    (hlist : env.ListPods (t ++ [Event.client]) = .error e) :
    (∀ (image : String) (files : Files) (cmdFn : CmdFn),
      perform env image files cmdFn t =
        (t ++ [Event.client, Event.listPods (labelSelector env.DefaultLabels)],
          some (GoError.wrap e "getting pods")) ∧
      cmds (perform env image files cmdFn t).1 = cmds t) ∧
    (∀ s : Item, s.Copy ≠ [] →
      Sync env s t =
        (t ++ [Event.client, Event.listPods (labelSelector env.DefaultLabels)],
          some (GoError.wrap (GoError.wrap e "getting pods") "copying files"))) ∧
    (∀ (s : Item) (t0 : List Event), s.Delete ≠ [] →
      (s.Copy = [] ∧ t0 = t ∨
        s.Copy ≠ [] ∧ perform env s.Image s.Copy copyFileFn t0 = (t, none)) →
      Sync env s t0 =
        (t ++ [Event.client, Event.listPods (labelSelector env.DefaultLabels)],
          some (GoError.wrap (GoError.wrap e "getting pods") "deleting files"))) ∧
    (GoError.wrap e "getting pods").Error = "getting pods: " ++ e.Error ∧
    (GoError.wrap (GoError.wrap e "getting pods") "copying files").Error
      = "copying files: getting pods: " ++ e.Error ∧
    (GoError.wrap (GoError.wrap e "getting pods") "deleting files").Error
      = "deleting files: getting pods: " ++ e.Error := by
  refine ⟨?_, ?_, ?_, rfl, ?_, ?_⟩
  · intro image files cmdFn
    have h := perform_list_error env image files cmdFn t e hclient hlist
    refine ⟨h, ?_⟩
    rw [h]
    simp [cmds, Event.cmd?]
  · intro s hcopy
    exact Sync_copy_error env s t _ _ hcopy
      (perform_list_error env s.Image s.Copy copyFileFn t e hclient hlist)
  · intro s t0 hdel hphase
    have hpos : s.Delete.length > 0 := List.length_pos.mpr hdel
    rcases hphase with ⟨hcopy, ht⟩ | ⟨hcopy, hperf⟩
    · subst ht
      rw [Sync_copy_empty env s t0 hcopy]
      simp only [hpos, if_true,
        perform_list_error env s.Image s.Delete deleteFileFn t0 e hclient hlist]
    · rw [Sync_copy_ok env s t0 t hcopy hperf]
      simp only [hpos, if_true,
        perform_list_error env s.Image s.Delete deleteFileFn t e hclient hlist]
  · rw [Error_wrap_wrap]
    simp [String.append_assoc]
  · rw [Error_wrap_wrap]
    simp [String.append_assoc]

/-- Two runs of C8: the pod query of the copy phase fails; the copy phase
succeeds and the pod query of the delete phase fails. -/
theorem pod_query_failure_witness :
    Sync noListEnv itemCopy [] =
        ([Event.client, Event.listPods selector0],
          some (GoError.wrap (GoError.wrap (GoError.new "connection refused") "getting pods")
            "copying files")) ∧
    Sync (flakyListEnv [podApp]) itemBoth [] =
        ([Event.client, Event.listPods selector0,
            Event.run ["kubectl", "cp", "/local/a.txt", "default/web-0:/app/a.txt", "-c", "app"]
              none,
            Event.client, Event.listPods selector0],
          some (GoError.wrap (GoError.wrap (GoError.new "connection refused") "getting pods")
            "deleting files")) :=
  ⟨(pod_query_failure noListEnv [] (GoError.new "connection refused") rfl rfl).2.1
      itemCopy (by decide),
    (pod_query_failure (flakyListEnv [podApp])
      [Event.client, Event.listPods selector0,
        Event.run ["kubectl", "cp", "/local/a.txt", "default/web-0:/app/a.txt", "-c", "app"]
          none]
      (GoError.new "connection refused") rfl rfl).2.2.1
      itemBoth [] (by decide) (Or.inr ⟨by decide, by decide⟩)⟩

/-- C4: when the copy mapping is non-empty and the copy phase fails, that is
`perform` returns an error `err` for it (the client or the pod query failed, a
copy command failed, or the count differed), `Sync` returns
`copying files: err` and stops where the copy phase stopped: its history is
the history of the copy phase, with at most one pod query and with copy
commands only, whatever the delete mapping. -/
theorem copy_failure_skips_delete (env : Env) (s : Item) (t : List Event) (err : GoError)
    (hcopy : s.Copy ≠ [])
    (hfail : (perform env s.Image s.Copy copyFileFn t).2 = some err) :
    Sync env s t =
      ((perform env s.Image s.Copy copyFileFn t).1, some (GoError.wrap err "copying files")) ∧
    ∃ evs : List Event,
      (Sync env s t).1 = t ++ evs ∧
      evs.countP Event.isList ≤ 1 ∧
      ∀ cmd ∈ cmds evs, isCopyCmd cmd = true ∧ isDeleteCmd cmd = false := by
  have h : Sync env s t =
      ((perform env s.Image s.Copy copyFileFn t).1,
        some (GoError.wrap err "copying files")) :=
    Sync_copy_error env s t _ err hcopy (Prod.ext rfl hfail)
  refine ⟨h, ?_⟩
  obtain ⟨evs, h1, h2, h3⟩ := perform_trace env s.Image s.Copy copyFileFn t
  refine ⟨evs, by rw [h]; exact h1, h2, ?_⟩
  intro cmd hcmd
  obtain ⟨p, c, f, hc⟩ := h3 cmd hcmd
  subst hc
  exact ⟨rfl, rfl⟩

/-- A run of C4: the copy command fails and the file to delete is left
alone. -/
theorem copy_failure_skips_delete_witness :
    Sync (failEnv [podApp]) itemBoth [] =
      ([Event.client, Event.listPods selector0,
          Event.run ["kubectl", "cp", "/local/a.txt", "default/web-0:/app/a.txt", "-c", "app"]
            (some (GoError.new "exit status 1"))],
        some (GoError.wrap (GoError.wrap (GoError.new "exit status 1") "syncing files")
          "copying files")) :=
  (copy_failure_skips_delete (failEnv [podApp]) itemBoth []
    (GoError.wrap (GoError.new "exit status 1") "syncing files") (by decide) (by decide)).1

/-- C3 fails on the code, by the unsynchronized `performed++` of C10.  The
listing has one container with image `app:v1` and one with another image, the
change-set has two files to copy and none to delete, and both copy commands
succeed.  When the two units of the group read `performed` before either
writes it, `Sync` issues exactly the two copy commands for the matching
container and returns `copying files: couldn't sync all the files` instead of
nil.  When the units run one after the other, the same commands are issued and
`Sync` returns nil. -/
theorem Sync_one_matching_container_lost_update :
    matching [podOther, podApp] itemCopy2.Image
      = [(podApp, { Name := "app", Image := "app:v1" })] ∧
    Sync (raceEnv [podOther, podApp]) itemCopy2 [] =
      ([Event.client, Event.listPods selector0,
          Event.run ["kubectl", "cp", "/local/a.txt", "default/web-0:/app/a.txt", "-c", "app"]
            none,
          Event.run ["kubectl", "cp", "/local/b.txt", "default/web-0:/app/b.txt", "-c", "app"]
            none],
        some (GoError.wrap (GoError.new "couldn't sync all the files") "copying files")) ∧
    Sync (okEnv [podOther, podApp]) itemCopy2 [] =
      ([Event.client, Event.listPods selector0,
          Event.run ["kubectl", "cp", "/local/a.txt", "default/web-0:/app/a.txt", "-c", "app"]
            none,
          Event.run ["kubectl", "cp", "/local/b.txt", "default/web-0:/app/b.txt", "-c", "app"]
            none],
        none) :=
  ⟨by decide, by decide, by decide⟩

/-- C6 fails on the code, by the unsynchronized `performed++` of C10.  Every
command succeeds and two files are given (`M = 2`).  With one container of the
image (`N = 1`), when the two units of the group read `performed` before either
writes it, the two commands are issued, `performed` is 1 and not `N * M = 2`
at the final check, and `perform` returns `couldn't sync all the files`
although `N * M = M`.  With two containers of the image (`N = 2`) and the same
interleaving in both groups, the four commands are issued, `performed` is 2
and not `N * M = 4`, and `perform` returns nil although `N * M ≠ M`. -/
theorem perform_count_lost_update :
    (matching [podApp] "app:v1").length = 1 ∧
    perform (raceEnv [podApp]) "app:v1" itemCopy2.Copy copyFileFn [] =
      ([Event.client, Event.listPods selector0,
          Event.run ["kubectl", "cp", "/local/a.txt", "default/web-0:/app/a.txt", "-c", "app"]
            none,
          Event.run ["kubectl", "cp", "/local/b.txt", "default/web-0:/app/b.txt", "-c", "app"]
            none],
        some (GoError.new "couldn't sync all the files")) ∧
    (performPods (raceEnv [podApp]) "app:v1" itemCopy2.Copy copyFileFn [podApp]
        { trace := [Event.client, Event.listPods selector0], performed := 0 }).1.performed
      = 1 ∧
    (matching [podApp, podApp2] "app:v1").length = 2 ∧
    perform (raceEnv [podApp, podApp2]) "app:v1" itemCopy2.Copy copyFileFn [] =
      ([Event.client, Event.listPods selector0,
          Event.run ["kubectl", "cp", "/local/a.txt", "default/web-0:/app/a.txt", "-c", "app"]
            none,
          Event.run ["kubectl", "cp", "/local/b.txt", "default/web-0:/app/b.txt", "-c", "app"]
            none,
          Event.run ["kubectl", "cp", "/local/a.txt", "default/web-1:/app/a.txt", "-c", "app"]
            none,
          Event.run ["kubectl", "cp", "/local/b.txt", "default/web-1:/app/b.txt", "-c", "app"]
            none],
        none) ∧
    (performPods (raceEnv [podApp, podApp2]) "app:v1" itemCopy2.Copy copyFileFn
        [podApp, podApp2]
        { trace := [Event.client, Event.listPods selector0], performed := 0 }).1.performed
      = 2 :=
  ⟨by decide, by decide, by decide, by decide, by decide, by decide⟩

/-- C7: let the selected pairs be `pre ++ tk :: post` in the order of the
loops.  When every command built for the pairs of `pre` succeeds and some
command built for `tk` fails, `perform` returns `syncing files: e`, where `e`
is the first error observed in the group of `tk`, the error of a failed
command of that group.  The history ends with that group: after the pod query
come the successful commands of the pairs of `pre`, then one command for
`tk` and every entry, and nothing for the pairs of `post`.  The error is the
one of line 108, not the verification error of the final check. -/
theorem perform_stops_at_failing_group (env : Env) (image : String) (files : Files)
    (cmdFn : CmdFn) (t : List Event) (pods : List Pod)
    (pre : List (Pod × Container)) (tk : Pod × Container) (post : List (Pod × Container))
    (hclient : env.Client t = none)
    (hlist : env.ListPods (t ++ [Event.client]) = .ok pods)
    (hm : matching pods image = pre ++ tk :: post)
    (hpre : ∀ u ∈ pre, ∀ f ∈ files, ∀ h : List Event,
      env.RunCmd h (cmdFn u.1 u.2 f.1 f.2) = none)
    (hk : ∃ f ∈ files, ∀ h : List Event, env.RunCmd h (cmdFn tk.1 tk.2 f.1 f.2) ≠ none) :
    ∃ (e : GoError) (before group : List Event),
      perform env image files cmdFn t =
        (t ++ [Event.client, Event.listPods (labelSelector env.DefaultLabels)]
            ++ before ++ group,
          some (GoError.wrap e "syncing files")) ∧
      (GoError.wrap e "syncing files").Error = "syncing files: " ++ e.Error ∧
      GoError.wrap e "syncing files" ≠ GoError.new "couldn't sync all the files" ∧
      before.length = pre.length * files.length ∧
      (∀ ev ∈ before, ∃ u ∈ pre, ∃ f ∈ files, ev = Event.run (cmdFn u.1 u.2 f.1 f.2) none) ∧
      group.length = files.length ∧
      (∀ ev ∈ group, ∃ f ∈ files, ∃ r, ev = Event.run (cmdFn tk.1 tk.2 f.1 f.2) r) ∧
      firstError group = some e ∧
      (∃ f ∈ files, Event.run (cmdFn tk.1 tk.2 f.1 f.2) (some e) ∈ group) := by
  obtain ⟨before, s1, hbefore, htr1, hblen, hbev⟩ := performTargets_all_ok env files cmdFn pre
    { trace := t ++ [Event.client, Event.listPods (labelSelector env.DefaultLabels)],
      performed := 0 } hpre
  rcases s1 with ⟨tr1, pf1⟩
  simp only at htr1
  subst htr1
  have hperf := perform_of_pods env image files cmdFn t pods hclient hlist
  rw [hm, performTargets_append, hbefore] at hperf
  simp only [performTargets] at hperf
  have htr := runGroup_trace env cmdFn files tk.1 tk.2
    { trace := t ++ [Event.client, Event.listPods (labelSelector env.DefaultLabels)]
        ++ before, performed := pf1 }
  have hres := runGroup_result env cmdFn files tk.1 tk.2
    { trace := t ++ [Event.client, Event.listPods (labelSelector env.DefaultLabels)]
        ++ before, performed := pf1 }
  simp only at htr hres
  have hmemE := mem_unitEvents env cmdFn tk.1 tk.2
    (env.order (t ++ [Event.client, Event.listPods (labelSelector env.DefaultLabels)]
      ++ before) files)
    (t ++ [Event.client, Event.listPods (labelSelector env.DefaultLabels)] ++ before)
  have hlenE := unitEvents_length env cmdFn tk.1 tk.2
    (env.order (t ++ [Event.client, Event.listPods (labelSelector env.DefaultLabels)]
      ++ before) files)
    (t ++ [Event.client, Event.listPods (labelSelector env.DefaultLabels)] ++ before)
  rw [(env.order_perm _ files).length_eq] at hlenE
  obtain ⟨f0, hf0, hbad⟩ := hk
  obtain ⟨h0, hin⟩ := unitEvents_mem_of_mem env cmdFn tk.1 tk.2
    (env.order (t ++ [Event.client, Event.listPods (labelSelector env.DefaultLabels)]
      ++ before) files) f0
    ((env.order_perm _ files).mem_iff.mpr hf0)
    (t ++ [Event.client, Event.listPods (labelSelector env.DefaultLabels)] ++ before)
  have hperm := env.order_perm
    (t ++ [Event.client, Event.listPods (labelSelector env.DefaultLabels)] ++ before) files
  generalize unitEvents env cmdFn tk.1 tk.2
    (env.order (t ++ [Event.client, Event.listPods (labelSelector env.DefaultLabels)]
      ++ before) files)
    (t ++ [Event.client, Event.listPods (labelSelector env.DefaultLabels)] ++ before) = E
    at htr hres hmemE hlenE hin
  generalize runGroup env cmdFn files tk.1 tk.2
    { trace := t ++ [Event.client, Event.listPods (labelSelector env.DefaultLabels)]
        ++ before, performed := pf1 } = r at hperf htr hres
  rcases r with ⟨s2, res⟩
  simp only at htr hres
  subst hres
  cases hfe : firstError E with
  | none =>
    have hnf := (firstError_none_iff E).mp hfe _ hin
    cases hr : env.RunCmd h0 (cmdFn tk.1 tk.2 f0.1 f0.2) with
    | none => exact absurd hr (hbad h0)
    | some e0 => rw [hr] at hnf; simp [Event.failed] at hnf
  | some e =>
    rw [hfe] at hperf
    simp only [] at hperf
    rw [htr] at hperf
    obtain ⟨cmd, hcmd⟩ := firstError_mem E e hfe
    refine ⟨e, before, E, hperf, rfl, by simp, hblen, hbev, hlenE, ?_, hfe, ?_⟩
    · intro ev hev
      obtain ⟨f, hf, h1, hh⟩ := hmemE ev hev
      exact ⟨f, hperm.mem_iff.mp hf, _, hh⟩
    · obtain ⟨f, hf, h1, hh⟩ := hmemE _ hcmd
      have hc : cmd = cmdFn tk.1 tk.2 f.1 f.2 := by
        simp only [Event.run.injEq] at hh
        exact hh.1
      rw [hc] at hcmd
      exact ⟨f, hperm.mem_iff.mp hf, hcmd⟩

/-- A run of C7: three containers with image `app:v1`; the command for the
second one fails, and no command is issued for the third one. -/
theorem perform_stops_at_failing_group_witness :
    ∃ (e : GoError) (before group : List Event),
      perform
          (failOnEnv [podApp, podApp2, podApp3]
            ["kubectl", "cp", "/local/a.txt", "default/web-1:/app/a.txt", "-c", "app"])
          "app:v1" [("/local/a.txt", "/app/a.txt")] copyFileFn [] =
        ([Event.client, Event.listPods selector0] ++ before ++ group,
          some (GoError.wrap e "syncing files")) ∧
      before.length = 1 ∧ group.length = 1 ∧
      perform
          (failOnEnv [podApp, podApp2, podApp3]
            ["kubectl", "cp", "/local/a.txt", "default/web-1:/app/a.txt", "-c", "app"])
          "app:v1" [("/local/a.txt", "/app/a.txt")] copyFileFn [] =
        ([Event.client, Event.listPods selector0,
            Event.run ["kubectl", "cp", "/local/a.txt", "default/web-0:/app/a.txt", "-c", "app"]
              none,
            Event.run ["kubectl", "cp", "/local/a.txt", "default/web-1:/app/a.txt", "-c", "app"]
              (some (GoError.new "exit status 1"))],
          some (GoError.wrap (GoError.new "exit status 1") "syncing files")) := by
  obtain ⟨e, before, group, h1, _, _, h4, _, h6, _⟩ :=
    perform_stops_at_failing_group
      (failOnEnv [podApp, podApp2, podApp3]
        ["kubectl", "cp", "/local/a.txt", "default/web-1:/app/a.txt", "-c", "app"])
      "app:v1" [("/local/a.txt", "/app/a.txt")] copyFileFn [] [podApp, podApp2, podApp3]
      [(podApp, { Name := "app", Image := "app:v1" })]
      (podApp2, { Name := "app", Image := "app:v1" })
      [(podApp3, { Name := "app", Image := "app:v1" })]
      rfl rfl (by decide)
      (by
        intro u hu f hf h
        rw [List.mem_singleton] at hu hf
        subst hu
        subst hf
        rfl)
      ⟨("/local/a.txt", "/app/a.txt"), List.mem_singleton_self _,
        fun _ => by simp [failOnEnv, copyFileFn, podApp2]⟩
  exact ⟨e, before, group, h1, h4, h6, by decide⟩

/-- C2, as stated, fails: with one container of image `app:v1`, one file to
copy and one file to delete, when the copy command fails `Sync` issues the
copy command and no delete command, although the delete mapping has one
entry. -/
theorem one_target_delete_count_counterexample :
    (matching [podApp] itemBoth.Image).length = 1 ∧
    (failEnv [podApp]).ListPods [Event.client] = .ok [podApp] ∧
    (cmds (Sync (failEnv [podApp]) itemBoth []).1).countP isCopyCmd = 1 ∧
    (cmds (Sync (failEnv [podApp]) itemBoth []).1).countP isDeleteCmd = 0 ∧
    itemBoth.Delete.length = 1 :=
  ⟨by decide, rfl, by decide, by decide, by decide⟩

/-- C2, amended: when the client is always obtained and every pod query
succeeds with exactly one container having the image of the change-set,
`Sync` issues as many copy commands as the copy mapping has entries, and,
when the copy phase returns no error (`Sync` does not return a
`copying files` error), as many delete commands as the delete mapping has
entries. -/
theorem one_target_command_counts (env : Env) (s : Item) (t : List Event)
    (hclient : ∀ h : List Event, env.Client h = none)
    (hlist : ∀ h : List Event, ∃ pods : List Pod,
      env.ListPods h = .ok pods ∧ (matching pods s.Image).length = 1) :
    ∃ evs : List Event,
      (Sync env s t).1 = t ++ evs ∧
      (cmds evs).countP isCopyCmd = s.Copy.length ∧
      ((∀ err : GoError, (Sync env s t).2 ≠ some (GoError.wrap err "copying files")) →
        (cmds evs).countP isDeleteCmd = s.Delete.length) := by
  have hcc : ∀ (p : Pod) (c : Container) (f : String × String),
      isCopyCmd (copyFileFn p c f.1 f.2) = true := fun _ _ _ => rfl
  have hcd : ∀ (p : Pod) (c : Container) (f : String × String),
      isDeleteCmd (copyFileFn p c f.1 f.2) = false := fun _ _ _ => rfl
  have hdc : ∀ (p : Pod) (c : Container) (f : String × String),
      isCopyCmd (deleteFileFn p c f.1 f.2) = false := fun _ _ _ => rfl
  have hdd : ∀ (p : Pod) (c : Container) (f : String × String),
      isDeleteCmd (deleteFileFn p c f.1 f.2) = true := fun _ _ _ => rfl
  have hdelphase : ∀ t1 : List Event, ∃ D : List Event,
      (if s.Delete.length > 0 then
        match perform env s.Image s.Delete deleteFileFn t1 with
        | (t2, some err) => (t2, some (GoError.wrap err "deleting files"))
        | (t2, none) => (t2, none)
      else
        (t1, none)).1 = t1 ++ D ∧
      (cmds D).countP isCopyCmd = 0 ∧
      (cmds D).countP isDeleteCmd = s.Delete.length := by
    intro t1
    by_cases hdel : s.Delete = []
    · exact ⟨[], by simp [hdel], by simp [cmds], by simp [cmds, hdel]⟩
    · have hpos : s.Delete.length > 0 := List.length_pos.mpr hdel
      obtain ⟨pods, hl, hone⟩ := hlist (t1 ++ [Event.client])
      obtain ⟨E, hE1, hE2⟩ := perform_one_target_counts env s.Image s.Delete deleteFileFn
        t1 pods (hclient t1) hl hone
      refine ⟨[Event.client, Event.listPods (labelSelector env.DefaultLabels)] ++ E,
        ?_, ?_, ?_⟩
      · simp only [hpos, if_true]
        generalize perform env s.Image s.Delete deleteFileFn t1 = r at hE1
        rcases r with ⟨t2, _ | err⟩
        · simpa using hE1
        · simpa using hE1
      · rw [cmds_client_list, hE2 isCopyCmd false hdc]
        rfl
      · rw [cmds_client_list, hE2 isDeleteCmd true hdd]
        rfl
  by_cases hcopy : s.Copy = []
  · rw [Sync_copy_empty env s t hcopy]
    obtain ⟨D, h1, h2, h3⟩ := hdelphase t
    exact ⟨D, h1, by rw [h2, hcopy]; rfl, fun _ => h3⟩
  · obtain ⟨pods, hl, hone⟩ := hlist (t ++ [Event.client])
    obtain ⟨E, hE1, hE2⟩ := perform_one_target_counts env s.Image s.Copy copyFileFn
      t pods (hclient t) hl hone
    have hEc : (cmds E).countP isCopyCmd = s.Copy.length := by
      rw [hE2 isCopyCmd true hcc]
      rfl
    have hEd : (cmds E).countP isDeleteCmd = 0 := by
      rw [hE2 isDeleteCmd false hcd]
      rfl
    rcases hr : perform env s.Image s.Copy copyFileFn t with ⟨t1, _ | err⟩
    · rw [hr] at hE1
      simp only at hE1
      rw [Sync_copy_ok env s t t1 hcopy hr]
      obtain ⟨D, h1, h2, h3⟩ := hdelphase t1
      refine ⟨[Event.client, Event.listPods (labelSelector env.DefaultLabels)] ++ E ++ D,
        ?_, ?_, ?_⟩
      · rw [h1, hE1]
        simp only [List.append_assoc]
      · rw [cmds_append, cmds_client_list, List.countP_append, hEc, h2]
        rfl
      · intro _
        rw [cmds_append, cmds_client_list, List.countP_append, hEd, h3, Nat.zero_add]
    · rw [hr] at hE1
      simp only at hE1
      rw [Sync_copy_error env s t t1 err hcopy hr]
      refine ⟨[Event.client, Event.listPods (labelSelector env.DefaultLabels)] ++ E,
        ?_, ?_, ?_⟩
      · rw [hE1]
        simp only [List.append_assoc]
      · rw [cmds_client_list, hEc]
      · intro hphase
        exact absurd rfl (hphase err)

/-- A run of the amended C2: one container with image `app:v1`, one file to
copy, one file to delete, every command succeeds; `Sync` returns nil, so the
copy phase returned no error. -/
theorem one_target_command_counts_witness :
    (∃ evs : List Event,
      (Sync (okEnv [podApp]) itemBoth []).1 = [] ++ evs ∧
      (cmds evs).countP isCopyCmd = 1 ∧
      ((∀ err : GoError,
          (Sync (okEnv [podApp]) itemBoth []).2 ≠ some (GoError.wrap err "copying files")) →
        (cmds evs).countP isDeleteCmd = 1)) ∧
    (Sync (okEnv [podApp]) itemBoth []).2 = none :=
  ⟨one_target_command_counts (okEnv [podApp]) itemBoth [] (fun _ => rfl)
    (fun _ => ⟨[podApp], rfl, by decide⟩), by decide⟩

/-- C10 fails on the code: the increment of `performed` is not synchronized.
In a group of two units whose commands both succeed, started with
`performed = 0`, the schedule in which both units read `performed` before
either writes it ends with every unit returned and `performed = 1`: one update
is lost.  The final check of `perform` then compares 1 with the 2 entries of
the mapping.  Under the schedule that runs the units one after the other the
counter is 2. -/
theorem racy_increment_loses_update :
    allReturned (runSchedule (startGroup 0 [none, none]) [0, 1, 0, 1, 0, 1]) = true ∧
    succeeded (runSchedule (startGroup 0 [none, none]) [0, 1, 0, 1, 0, 1]) = 2 ∧
    (runSchedule (startGroup 0 [none, none]) [0, 1, 0, 1, 0, 1]).performed = 1 ∧
    (runSchedule (startGroup 0 [none, none]) [0, 0, 0, 1, 1, 1]).performed = 2 ∧
    ¬ ∀ (outcomes : List (Option GoError)) (schedule : List Nat),
        allReturned (runSchedule (startGroup 0 outcomes) schedule) = true →
        (runSchedule (startGroup 0 outcomes) schedule).performed
          = succeeded (startGroup 0 outcomes) := by
  refine ⟨by decide, by decide, by decide, by decide, ?_⟩
  intro h
  exact absurd (h [none, none] [0, 1, 0, 1, 0, 1] (by decide)) (by decide)

end Skaffold
